import Mathlib

/-!
Verification development for the doc-filler repository (`src/main.py`):
a shallow embedding of its placeholder-extraction, semantic-labeler
fallback, fill-session, and document-materialization code, together with
theorems settling the specification claims about them.
-/

set_option maxRecDepth 8000

namespace DocFiller

/-- Characters of a Python `str`, modelled as a list of `Char`. -/
abbrev Str := List Char

/-- Python's `s.find(sub)`: the first index at which `sub` starts in `s`,
`none` standing for Python's `-1`. -/
def pyFind (s sub : Str) : Option Nat :=
  (List.range (s.length + 1)).find? (fun i => sub.isPrefixOf (s.drop i))

/-- Python's `sub in s` substring test, which is `s.find(sub) != -1`. -/
def pyContains (s sub : Str) : Bool := (pyFind s sub).isSome

/-- Python's `s.replace("", new)`: `new` is inserted before every character
of `s` and once at the end. -/
def pyReplaceEmpty (new : Str) : Str → Str
  | [] => new
  | c :: rest => new ++ c :: pyReplaceEmpty new rest

/-- Python's `s.replace(old, new)` for nonempty `old`: a global,
leftmost, non-overlapping substring replacement. The structural `fuel`
argument is instantiated with the input length, which suffices because
every step consumes at least one character. -/
def pyReplaceAux (old new : Str) : Nat → Str → Str
  | _, [] => []
  | 0, c :: rest => c :: rest
  | fuel + 1, c :: rest =>
    if old.isPrefixOf (c :: rest) then
      new ++ pyReplaceAux old new fuel (rest.drop (old.length - 1))
    else
      c :: pyReplaceAux old new fuel rest

/-- Python's `s.replace(old, new)` (global replacement of every
non-overlapping occurrence, scanning left to right). -/
def pyReplace (s old new : Str) : Str :=
  if old = [] then pyReplaceEmpty new s else pyReplaceAux old new s.length s

/-- A formatting run of a paragraph: its text plus an opaque formatting
descriptor (never inspected by the code, only preserved). -/
structure Run where
  text : Str
  fmt : Nat
deriving DecidableEq, Repr

/-- A paragraph is an ordered sequence of runs. -/
structure Para where
  runs : List Run
deriving DecidableEq, Repr

/-- `paragraph.text` of python-docx: the concatenation of the runs' text. -/
def paraText (p : Para) : Str := (p.runs.map Run.text).flatten

/-- Embedding of `replace_text_in_paragraph(paragraph, old_text, new_text)`
from `src/main.py`: if `old_text` is not in `paragraph.text`, return
unchanged; otherwise build the full text from the runs, bail out if `find`
fails, clear every run's text, globally replace `old_text` by `new_text`
in the full text and store the result in the first run. -/
def replace_text_in_paragraph (p : Para) (old new : Str) : Para :=
  if pyContains (paraText p) old = false then p
  else
    let full := paraText p
    match pyFind full old with
    | none => p
    | some _ =>
      let cleared := p.runs.map (fun r => { r with text := [] })
      let newFull := pyReplace full old new
      match cleared with
      | [] => ⟨[]⟩
      | r :: rest => ⟨{ r with text := newFull } :: rest⟩

/-! ## Placeholder extractor (`extract_placeholders` in `src/main.py`) -/

/-- The characters matched by Python's `\s` class, over the ASCII range the
repository's documents use. -/
def pyIsSpace (c : Char) : Bool :=
  c = ' ' || c = '\t' || c = '\n' || c = '\r' || c = '\x0b' || c = '\x0c'

/-- The character class `[_.\s]` of the blank-bracket pattern. -/
def blankClass (c : Char) : Bool :=
  c = '_' || c = '.' || pyIsSpace c

/-- Matcher for a delimiter pattern `o[^c]+c` (used for `\[[^\]]+\]`,
`\{[^\}]+\}` and `<[^>]+>`) at the start of a string: on success returns
the matched token and the remainder of the input after it. -/
def matchDelim (o c : Char) (s : Str) : Option (Str × Str) :=
  match s with
  | [] => none
  | x :: rest =>
    if x = o then
      let mid := rest.takeWhile (fun ch => ch ≠ c)
      if mid.isEmpty then none
      else
        match rest.dropWhile (fun ch => ch ≠ c) with
        | y :: rem => if y = c then some (o :: (mid ++ [c]), rem) else none
        | [] => none
    else none

/-- Matcher for `\[[_.\s]*\]` at the start of a string. -/
def matchBlankCore (s : Str) : Option (Str × Str) :=
  match s with
  | [] => none
  | x :: rest =>
    if x = '[' then
      match rest.dropWhile blankClass with
      | y :: rem =>
        if y = ']' then some ('[' :: (rest.takeWhile blankClass ++ [']']), rem)
        else none
      | [] => none
    else none

/-- Matcher for `\$?\[[_.\s]*\]` at the start of a string (the optional `$`
backtracks to nothing only when the following bracket fails, and then the
`[` cannot match the `$` either, matching the regex engine's behaviour). -/
def matchBlank (s : Str) : Option (Str × Str) :=
  match s with
  | [] => none
  | x :: rest =>
    if x = '$' then
      match matchBlankCore rest with
      | some (tok, rem) => some ('$' :: tok, rem)
      | none => none
    else matchBlankCore s

/-- Leftmost, non-overlapping scan of a matcher over a string, as
`re.findall` performs for these group-free patterns; `fuel` bounds the
recursion and is instantiated with the input length. -/
def scanAll (m : Str → Option (Str × Str)) : Nat → Str → List Str
  | 0, _ => []
  | _ + 1, [] => []
  | fuel + 1, c :: rest =>
    match m (c :: rest) with
    | some (tok, rem) => tok :: scanAll m fuel rem
    | none => scanAll m fuel rest

/-- `re.findall(pat, text)` for one of the four placeholder patterns. -/
def findall (m : Str → Option (Str × Str)) (s : Str) : List Str :=
  scanAll m (s.length + 1) s

/-- Embedding of `extract_placeholders(text)` from `src/main.py`: the four
patterns are scanned independently over the text and their matches are
unioned into a duplicate-free collection. -/
def extract_placeholders (text : Str) : List Str :=
  (findall (matchDelim '[' ']') text ++ findall matchBlank text ++
    findall (matchDelim '{' '}') text ++ findall (matchDelim '<' '>') text).dedup

/-! ## Semantic labeler adapter (`identify_placeholders_with_llm`) -/

/-- One `{placeholder, label, question}` entry of the labeler's output. -/
structure Detail where
  placeholder : Str
  label : Str
  question : Str
deriving DecidableEq, Repr

/-- The deterministic fallback list built in the `except` branch of
`identify_placeholders_with_llm`: one entry per token, in the order of the
given placeholder list. -/
def fallback_details (placeholders : List Str) : List Detail :=
  placeholders.map (fun ph =>
    ⟨ph, ph, ("What should I fill for ".data ++ ph ++ "?".data)⟩)

/-- Embedding of `identify_placeholders_with_llm(text, placeholders)`.
The external Gemini call and JSON parse are modelled by their outcome
`llmResponse`: `some data` when the call and parse succeed, `none` when
the call fails, times out, or the response cannot be parsed, in which
case the `except` branch produces the deterministic fallback. -/
def identify_placeholders_with_llm (llmResponse : Option (List Detail))
    (placeholders : List Str) : List Detail :=
  match llmResponse with
  | some data => data
  | none => fallback_details placeholders

/-- The match start positions of `re.finditer(re.escape(ph), text)`:
leftmost, non-overlapping occurrences of the literal `ph`; `fuel` is
instantiated with the input length. -/
def findIter (ph : Str) : Nat → Nat → Str → List Nat
  | 0, _, _ => []
  | fuel + 1, pos, s =>
    if ph.isPrefixOf s then
      if s.isEmpty then [pos]
      else pos :: findIter ph fuel (pos + max ph.length 1) (s.drop (max ph.length 1))
    else
      match s with
      | [] => []
      | _ :: rest => findIter ph fuel (pos + 1) rest

/-- All occurrence start positions of `ph` in `text`. -/
def occurrenceStarts (text ph : Str) : List Nat :=
  findIter ph (text.length + 1) 0 text

/-- The context window `text[max(0, m-100) : min(len(text), m+len(ph)+100)]`
computed for a match starting at `m` in the snippet loop of
`identify_placeholders_with_llm` (natural subtraction is Python's
`max(0, ...)` clamp). -/
def window (text : Str) (phLen m : Nat) : Str :=
  let start := m - 100
  let stop := min text.length (m + phLen + 100)
  (text.drop start).take (stop - start)

/-- The snippet stored for `ph` by the loop
`for match in re.finditer(...): snippets[ph] = text[start:end]`:
each iteration overwrites the dict entry, `none` when `ph` never occurs
(the key is never assigned). -/
def snippet_for (text ph : Str) : Option Str :=
  (occurrenceStarts text ph).foldl (fun _ m => some (window text ph.length m)) none

/-! ## Fill session (`/fill` endpoint) -/

/-- An insertion-ordered Python dict over string keys, as an association
list: assignment updates an existing key in place or appends a new one. -/
abbrev Answers := List (Str × Str)

/-- Python's `d[k] = v` on an insertion-ordered dict. -/
def dictInsert (m : Answers) (k v : Str) : Answers :=
  if m.any (fun p => p.1 = k) then
    m.map (fun p => if p.1 = k then (k, v) else p)
  else m ++ [(k, v)]

/-- Python's `l[i]` list indexing with an `int` index: negative indices
count from the end, and an index out of `[-len(l), len(l))` raises
`IndexError`, modelled as `none`. -/
def pyIndex (l : List α) (i : Int) : Option α :=
  if 0 ≤ i then l[i.toNat]?
  else if 0 ≤ (l.length : Int) + i then l[((l.length : Int) + i).toNat]?
  else none

/-- The observable outcome of one `/fill` request: the updated answers
dict, and `next = some (question, shownIndex)` when another question page
is returned (`shownIndex` is the `index + 1` displayed as progress), or
`next = none` when the completion page is returned. -/
structure FillResult where
  answers : Answers
  next : Option (Str × Int)
deriving DecidableEq, Repr

/-- Embedding of the `fill(request, answer, index)` endpoint of
`src/main.py`: it reads `details[index]` (an uncaught `IndexError`,
modelled `none`, when out of range), records the answer under that
placeholder, increments the index and either returns the next question or
the completion page. No check against any tracked current position is
performed. -/
def fill (details : List Detail) (answers : Answers) (index : Int)
    (answer : Str) : Option FillResult :=
  match pyIndex details index with
  | none => none
  | some d =>
    let answers' := dictInsert answers d.placeholder answer
    let index' := index + 1
    if index' < (details.length : Int) then
      match pyIndex details index' with
      | some d' => some ⟨answers', some (d'.question, index' + 1)⟩
      | none => none
    else
      some ⟨answers', none⟩

/-! ## Document model and materializer -/

/-- A table cell owns a sequence of paragraphs. -/
structure Cell where
  paragraphs : List Para
deriving DecidableEq, Repr

/-- A table row owns a sequence of cells. -/
structure Row where
  cells : List Cell
deriving DecidableEq, Repr

/-- A table owns a sequence of rows. -/
structure Table where
  rows : List Row
deriving DecidableEq, Repr

/-- A document owns top-level paragraphs and tables. -/
structure Doc where
  paragraphs : List Para
  tables : List Table
deriving DecidableEq, Repr

/-- The body of the per-paragraph loop of
`replace_placeholders_in_document`: one `(placeholder, answer)` item is
applied to a paragraph when the paragraph's text contains it. -/
def applyPair (p : Para) (ta : Str × Str) : Para :=
  if pyContains (paraText p) ta.1 then replace_text_in_paragraph p ta.1 ta.2 else p

/-- The inner `for placeholder, answer in answers.items()` loop applied to
one paragraph, in dict order. -/
def applyAnswers (answers : Answers) (p : Para) : Para :=
  answers.foldl applyPair p

/-- Embedding of `replace_placeholders_in_document(doc, answers)` from
`src/main.py`: the answers loop runs over every top-level paragraph and
over every paragraph of every cell of every row of every table. -/
def replace_placeholders_in_document (d : Doc) (answers : Answers) : Doc :=
  { paragraphs := d.paragraphs.map (applyAnswers answers)
    tables := d.tables.map (fun t =>
      ⟨t.rows.map (fun r =>
        ⟨r.cells.map (fun c =>
          ⟨c.paragraphs.map (applyAnswers answers)⟩)⟩)⟩) }

/-- The paragraphs of cell `ci` of row `ri` of table `ti` of a document. -/
def cellParas (d : Doc) (ti ri ci : Nat) : Option (List Para) :=
  d.tables[ti]?.bind fun t =>
    t.rows[ri]?.bind fun r =>
      r.cells[ci]?.map Cell.paragraphs

/-! ## Session store and the `/download` endpoint -/

/-- The `SESSION` dict: each key either absent (`none`) or set by a prior
upload. The stored document is an index into the document heap, so that
in-place mutation of document objects is observable. -/
structure Session where
  text : Option Str
  docIdx : Option Nat
  answers : Option Answers
  fileName : Option Str
deriving DecidableEq, Repr

/-- The heap of live `Document` objects; indices stand for object
identity, so cloning allocates a new cell and in-place mutation updates
exactly one cell. -/
structure Store where
  docs : List Doc
deriving DecidableEq, Repr

/-- The structured errors the `/download` endpoint returns (the three
HTTP-400 pages for missing session keys and the HTTP-500 page of the
`except` branch). -/
inductive MaterializationError where
  | noDocumentData
  | noAnswers
  | noOriginalDocument
  | internal
deriving DecidableEq, Repr

/-- Embedding of the `download()` endpoint of `src/main.py`: it checks the
session keys `text`, `answers`, `doc` in order and returns a structured
error page when one is missing; otherwise it clones the stored document
by a save/reload round trip (a fresh heap cell with the same structural
content), mutates only the clone via
`replace_placeholders_in_document`, and serializes the clone (the
serialized output is modelled by the clone's structural content).
The session is not written by the endpoint. -/
def download (store : Store) (s : Session) :
    Except MaterializationError (Store × Session × Doc) :=
  match s.text with
  | none => .error .noDocumentData
  | some _ =>
    match s.answers with
    | none => .error .noAnswers
    | some answers =>
      match s.docIdx with
      | none => .error .noOriginalDocument
      | some idx =>
        match store.docs[idx]? with
        | none => .error .internal
        | some orig =>
          let cloneIdx := store.docs.length
          let store1 : Store := ⟨store.docs ++ [orig]⟩
          let mutated := replace_placeholders_in_document orig answers
          let store2 : Store := ⟨store1.docs.set cloneIdx mutated⟩
          .ok (store2, s, mutated)

/-- `n` successive `/download` requests against the same session,
threading the document heap. -/
def downloadN : Nat → Store → Session → Store
  | 0, st, _ => st
  | n + 1, st, s =>
    match download st s with
    | .ok (st', s', _) => downloadN n st' s'
    | .error _ => downloadN n st s

/-! ## Supporting lemmas -/

/-- The empty string contains only the empty substring. -/
theorem pyContains_nil {t : Str} (h : pyContains [] t = true) : t = [] := by
  cases t with
  | nil => rfl
  | cons c cs =>
    simp [pyContains, show pyFind [] (c :: cs) = none from rfl] at h

/-- Unfolding of `replace_text_in_paragraph` on a paragraph whose text
contains the token: the new full text sits in the first run, all later
runs are cleared, and formats are untouched. -/
theorem replace_text_in_paragraph_spec (p : Para) (old new : Str)
    (hruns : p.runs ≠ []) (h : pyContains (paraText p) old = true) :
    ((replace_text_in_paragraph p old new).runs.head?).map Run.text
        = some (pyReplace (paraText p) old new)
  ∧ (∀ r ∈ (replace_text_in_paragraph p old new).runs.tail, r.text = [])
  ∧ (replace_text_in_paragraph p old new).runs.map Run.fmt = p.runs.map Run.fmt
  ∧ paraText (replace_text_in_paragraph p old new)
        = pyReplace (paraText p) old new := by
  obtain ⟨n, hn⟩ := Option.isSome_iff_exists.mp h
  obtain ⟨r0, rest, hr⟩ : ∃ r0 rest, p.runs = r0 :: rest := by
    cases hq : p.runs with
    | nil => exact absurd hq hruns
    | cons a l => exact ⟨a, l, rfl⟩
  have hres : replace_text_in_paragraph p old new
      = ⟨{ r0 with text := pyReplace (paraText p) old new }
          :: rest.map (fun r => { r with text := [] })⟩ := by
    unfold replace_text_in_paragraph
    rw [h]
    simp only [Bool.true_eq_false, if_false, hn, hr, List.map_cons]
  have hflat : ∀ l : List Run,
      ((l.map (fun r => { r with text := ([] : Str) })).map Run.text).flatten = [] := by
    intro l
    rw [List.flatten_eq_nil_iff]
    intro x hx
    simp only [List.map_map, List.mem_map] at hx
    obtain ⟨r, _, hx⟩ := hx
    exact hx.symm
  refine ⟨?_, ?_, ?_, ?_⟩
  · rw [hres]
    rfl
  · rw [hres]
    intro r hrm
    simp only [List.tail_cons, List.mem_map] at hrm
    obtain ⟨x, _, hx⟩ := hrm
    exact hx ▸ rfl
  · rw [hres, hr]
    simp [List.map_map, Function.comp]
  · rw [hres]
    simp only [paraText, List.map_cons, List.flatten_cons]
    rw [show (rest.map (fun r => { r with text := ([] : Str) })).map Run.text
          = ((rest.map (fun r => { r with text := ([] : Str) })).map Run.text) from rfl]
    rw [hflat rest, List.append_nil]

/-! ## Claim C1 -/

/-- A concrete placeholder entry used by the concrete sessions below. -/
def detailA : Detail := ⟨"[A]".data, "[A]".data, "What is A?".data⟩

/-- A second concrete placeholder entry. -/
def detailB : Detail := ⟨"[B]".data, "[B]".data, "What is B?".data⟩

/-- Claim C1, evaluated at its failing inputs: the `/fill` endpoint does
not track or check a current index. A fresh session over two placeholders
(so in `AwaitingAnswer(0)`) accepts `submit(1, "y")` and records the
answer for the second placeholder, instead of rejecting it and leaving
the answers map unchanged; and a session whose every placeholder is
already answered (`Complete`) accepts a further submit, overwriting the
stored answer, instead of rejecting it. -/
theorem C1_fill_accepts_any_index :
    fill [detailA, detailB] [] 1 "y".data
      = some ⟨[("[B]".data, "y".data)], none⟩
  ∧ fill [detailA] [("[A]".data, "x".data)] 0 "w".data
      = some ⟨[("[A]".data, "w".data)], none⟩ :=
  ⟨rfl, rfl⟩

/-! ## Claim C2 -/

/-- The paragraph of Scenario C: runs `["Dear ", "[Na", "me]", ", hi"]`. -/
def scenarioC : Para :=
  ⟨[⟨"Dear ".data, 0⟩, ⟨"[Na".data, 1⟩, ⟨"me]".data, 2⟩, ⟨", hi".data, 3⟩]⟩

/-- Claim C2: on a paragraph whose concatenated run text contains the
token, the run-preserving substitution globally replaces every
occurrence of the token in that concatenation, puts the whole resulting
text in the first run, empties every other run, and preserves each run's
formatting; in particular Scenario C's paragraph with token `"[Name]"`
and answer `"Alice"` yields concatenated text `"Dear Alice, hi"`, held
entirely in the first run with the other three runs empty. -/
theorem C2_run_preserving_substitution (p : Para) (old new : Str)
    (hruns : p.runs ≠ []) (h : pyContains (paraText p) old = true) :
    (((replace_text_in_paragraph p old new).runs.head?).map Run.text
        = some (pyReplace (paraText p) old new)
      ∧ (∀ r ∈ (replace_text_in_paragraph p old new).runs.tail, r.text = [])
      ∧ (replace_text_in_paragraph p old new).runs.map Run.fmt = p.runs.map Run.fmt
      ∧ paraText (replace_text_in_paragraph p old new)
          = pyReplace (paraText p) old new)
    ∧ paraText (replace_text_in_paragraph scenarioC "[Name]".data "Alice".data)
        = "Dear Alice, hi".data
    ∧ (replace_text_in_paragraph scenarioC "[Name]".data "Alice".data).runs.map Run.text
        = ["Dear Alice, hi".data, [], [], []] :=
  ⟨replace_text_in_paragraph_spec p old new hruns h, rfl, rfl⟩

/-- Witness for C2 at Scenario C's paragraph and token. -/
theorem C2_witness :
    paraText (replace_text_in_paragraph scenarioC "[Name]".data "Alice".data)
      = pyReplace (paraText scenarioC) "[Name]".data "Alice".data :=
  (C2_run_preserving_substitution scenarioC "[Name]".data "Alice".data
    (by decide) (by decide)).1.2.2.2

/-! ## Claim C3 -/

/-- A fold that overwrites its accumulator at every element ends holding
the value computed from the last element. -/
theorem foldl_overwrite_getLast {α β : Type} (f : α → β) :
    ∀ (l : List α) (h : l ≠ []) (init : Option β),
      l.foldl (fun _ m => some (f m)) init = some (f (l.getLast h)) := by
  intro l
  induction l with
  | nil => intro h; exact absurd rfl h
  | cons a l ih =>
    intro h init
    cases l with
    | nil => rfl
    | cons b l' =>
      rw [List.foldl_cons, List.getLast_cons (by simp)]
      exact ih (by simp) _

/-- The document text of the C3 counterexample: `"[N]"`, two hundred
`'a'`s, then `"[N]"` again, so the two occurrences' 100-character windows
differ. -/
def c3text : Str := "[N]".data ++ List.replicate 200 'a' ++ "[N]".data

/-- Claim C3 counterexample: on `c3text` the token `"[N]"` occurs at
positions 0 and 203; the snippet loop keeps the window of the last
occurrence (position 203), which differs from the first occurrence's
window, so the claim that the first occurrence's window is kept is
false. -/
theorem C3_first_occurrence_refuted :
    occurrenceStarts c3text "[N]".data = [0, 203]
  ∧ snippet_for c3text "[N]".data
      = some (window c3text ("[N]".data).length 203)
  ∧ window c3text ("[N]".data).length 203 ≠ window c3text ("[N]".data).length 0
  ∧ snippet_for c3text "[N]".data ≠ some (window c3text ("[N]".data).length 0) :=
  ⟨by decide, by decide, by decide, by decide⟩

/-- Claim C3 (amended): the snippet stored for a token that occurs in the
text is the clamped 100-character window around the token's last
occurrence — each iteration of the match loop overwrites the entry, so
the last occurrence's window is what remains. -/
theorem C3_snippet_last_occurrence (text ph : Str)
    (h : occurrenceStarts text ph ≠ []) :
    snippet_for text ph
      = some (window text ph.length ((occurrenceStarts text ph).getLast h)) := by
  unfold snippet_for
  exact foldl_overwrite_getLast (window text ph.length)
    (occurrenceStarts text ph) h none

/-- Witness for the amended C3 on a small two-occurrence text. -/
theorem C3_witness :
    snippet_for "[N]a[N]".data "[N]".data
      = some (window "[N]a[N]".data ("[N]".data).length
          ((occurrenceStarts "[N]a[N]".data "[N]".data).getLast (by decide))) :=
  C3_snippet_last_occurrence "[N]a[N]".data "[N]".data (by decide)

/-! ## Claim C4 -/

/-- Claim C4: when the external labeling call fails, times out, or cannot
be parsed (`llmResponse = none`), the adapter produces exactly one entry
per token in the given order, with label equal to the token and question
`"What should I fill for " + token + "?"`; Scenario B's two tokens yield
exactly the two fallback entries. -/
theorem C4_labeler_fallback (phs : List Str) (i : Nat) (h : i < phs.length) :
    (identify_placeholders_with_llm none phs).length = phs.length
  ∧ (identify_placeholders_with_llm none phs)[i]?
      = some ⟨phs[i], phs[i], ("What should I fill for ".data ++ phs[i] ++ "?".data)⟩
  ∧ identify_placeholders_with_llm none ["[Name]".data, "{amount}".data]
      = [⟨"[Name]".data, "[Name]".data, "What should I fill for [Name]?".data⟩,
         ⟨"{amount}".data, "{amount}".data, "What should I fill for {amount}?".data⟩] := by
  refine ⟨?_, ?_, rfl⟩
  · simp [identify_placeholders_with_llm, fallback_details]
  · simp only [identify_placeholders_with_llm, fallback_details, List.getElem?_map,
      List.getElem?_eq_getElem h, Option.map_some']

/-- Witness for C4 at Scenario B's token list. -/
theorem C4_witness :
    (identify_placeholders_with_llm none ["[Name]".data, "{amount}".data]).length = 2
  ∧ (identify_placeholders_with_llm none ["[Name]".data, "{amount}".data])[0]?
      = some ⟨"[Name]".data, "[Name]".data, "What should I fill for [Name]?".data⟩ :=
  ⟨(C4_labeler_fallback ["[Name]".data, "{amount}".data] 0 (by decide)).1,
   (C4_labeler_fallback ["[Name]".data, "{amount}".data] 0 (by decide)).2.1⟩

/-! ## Claim C5 -/

/-- Shape rule for the delimiter patterns of §4.1: `o`, then one or more
characters other than `c`, then `c`. -/
def delimShape (o c : Char) (s : Str) : Prop :=
  ∃ mid, mid ≠ [] ∧ (∀ ch ∈ mid, ch ≠ c) ∧ s = o :: (mid ++ [c])

/-- Shape of `\[[_.\s]*\]`: `[`, a possibly empty run of
whitespace/underscore/dot characters, then `]`. -/
def blankCoreShape (s : Str) : Prop :=
  ∃ mid, (∀ ch ∈ mid, blankClass ch = true) ∧ s = '[' :: (mid ++ [']'])

/-- Shape rule for the blank-bracket pattern: an optional leading `$`
before the blank bracket body. -/
def blankShape (s : Str) : Prop :=
  blankCoreShape s ∨ ∃ t, blankCoreShape t ∧ s = '$' :: t

/-- Whatever `matchDelim o c` matches has the corresponding shape. -/
theorem matchDelim_shape {o c : Char} {s tok rem : Str}
    (h : matchDelim o c s = some (tok, rem)) : delimShape o c tok := by
  cases s with
  | nil => exact absurd h (by simp [matchDelim])
  | cons x rest =>
    simp only [matchDelim] at h
    split at h
    · split at h
      · exact absurd h (by simp)
      · next hmid =>
        split at h
        · next y rem' heq =>
          split at h
          · rw [Option.some.injEq, Prod.mk.injEq] at h
            obtain ⟨htok, -⟩ := h
            refine ⟨rest.takeWhile (fun ch => ch ≠ c), ?_, ?_, htok.symm⟩
            · intro hnil
              rw [hnil] at hmid
              exact hmid rfl
            · intro ch hch
              have h2 := List.mem_takeWhile_imp hch
              simpa using h2
          · exact absurd h (by simp)
        · exact absurd h (by simp)
    · exact absurd h (by simp)

/-- Whatever `matchBlankCore` matches has the blank-bracket body shape. -/
theorem matchBlankCore_shape {s tok rem : Str}
    (h : matchBlankCore s = some (tok, rem)) : blankCoreShape tok := by
  cases s with
  | nil => exact absurd h (by simp [matchBlankCore])
  | cons x rest =>
    simp only [matchBlankCore] at h
    split at h
    · split at h
      · next y rem' heq =>
        split at h
        · rw [Option.some.injEq, Prod.mk.injEq] at h
          obtain ⟨htok, -⟩ := h
          exact ⟨rest.takeWhile blankClass,
            fun ch hch => List.mem_takeWhile_imp hch, htok.symm⟩
        · exact absurd h (by simp)
      · exact absurd h (by simp)
    · exact absurd h (by simp)

/-- Whatever `matchBlank` matches has the optional-`$` blank shape. -/
theorem matchBlank_shape {s tok rem : Str}
    (h : matchBlank s = some (tok, rem)) : blankShape tok := by
  cases s with
  | nil => exact absurd h (by simp [matchBlank])
  | cons x rest =>
    simp only [matchBlank] at h
    split at h
    · cases hc : matchBlankCore rest with
      | none => rw [hc] at h; exact absurd h (by simp)
      | some pr =>
        obtain ⟨t, rem'⟩ := pr
        rw [hc] at h
        rw [Option.some.injEq, Prod.mk.injEq] at h
        obtain ⟨htok, -⟩ := h
        exact Or.inr ⟨t, matchBlankCore_shape hc, htok.symm⟩
    · exact Or.inl (matchBlankCore_shape h)

/-- Every token produced by a scan of a matcher satisfies any property
that the matcher's successful outputs satisfy. -/
theorem shape_of_mem_scanAll {m : Str → Option (Str × Str)} {P : Str → Prop}
    (hm : ∀ s tok rem, m s = some (tok, rem) → P tok) :
    ∀ (fuel : Nat) (s : Str), ∀ tok ∈ scanAll m fuel s, P tok := by
  intro fuel
  induction fuel with
  | zero => intro s tok h; simp [scanAll] at h
  | succ n ih =>
    intro s tok h
    cases s with
    | nil => simp [scanAll] at h
    | cons c rest =>
      simp only [scanAll] at h
      cases hm2 : m (c :: rest) with
      | none =>
        rw [hm2] at h
        exact ih rest tok h
      | some pr =>
        obtain ⟨t, rem⟩ := pr
        rw [hm2] at h
        rcases List.mem_cons.mp h with h | h
        · exact h ▸ hm _ _ _ hm2
        · exact ih rem tok h

/-- Specialization of the scan lemma to `findall`. -/
theorem shape_of_mem_findall {m : Str → Option (Str × Str)} {P : Str → Prop}
    (hm : ∀ s tok rem, m s = some (tok, rem) → P tok)
    {s tok : Str} (h : tok ∈ findall m s) : P tok := by
  simp only [findall] at h
  exact shape_of_mem_scanAll hm _ _ tok h

/-- Claim C5: the extractor returns no duplicate tokens, every returned
token matches one of the four §4.1 shape rules, Scenario A's text yields
exactly `{"[Name]", "{amount}"}`, and a substring matched by two rules
(`"[ ]"` matches both the bracket and blank-bracket rules) yields a
single entry. -/
theorem C5_extractor_shapes (text : Str) :
    (extract_placeholders text).Nodup
  ∧ (∀ tok ∈ extract_placeholders text,
      delimShape '[' ']' tok ∨ blankShape tok
        ∨ delimShape '{' '}' tok ∨ delimShape '<' '>' tok)
  ∧ extract_placeholders "Dear [Name], your balance is {amount}.".data
      = ["[Name]".data, "{amount}".data]
  ∧ extract_placeholders "[ ]".data = ["[ ]".data] := by
  refine ⟨List.nodup_dedup _, ?_, by decide, by decide⟩
  intro tok htok
  rw [extract_placeholders, List.mem_dedup] at htok
  rcases List.mem_append.mp htok with htok | h4
  · rcases List.mem_append.mp htok with htok | h3
    · rcases List.mem_append.mp htok with h1 | h2
      · exact Or.inl (shape_of_mem_findall (fun _ _ _ hh => matchDelim_shape hh) h1)
      · exact Or.inr (Or.inl
          (shape_of_mem_findall (fun _ _ _ hh => matchBlank_shape hh) h2))
    · exact Or.inr (Or.inr (Or.inl
        (shape_of_mem_findall (fun _ _ _ hh => matchDelim_shape hh) h3)))
  · exact Or.inr (Or.inr (Or.inr
      (shape_of_mem_findall (fun _ _ _ hh => matchDelim_shape hh) h4)))

/-- Witness for C5 at Scenario A's text and its `"[Name]"` token. -/
theorem C5_witness :
    ("[Name]".data ∈ extract_placeholders "Dear [Name], your balance is {amount}.".data)
  ∧ (delimShape '[' ']' "[Name]".data ∨ blankShape "[Name]".data
      ∨ delimShape '{' '}' "[Name]".data ∨ delimShape '<' '>' "[Name]".data) :=
  ⟨by decide,
   (C5_extractor_shapes "Dear [Name], your balance is {amount}.".data).2.1
     "[Name]".data (by decide)⟩

/-! ## Claim C7 -/

/-- Claim C7: materializing any document with an empty answers map leaves
it unchanged — every run text of every paragraph, top-level or inside any
table cell, is exactly the source's. -/
theorem C7_empty_answers_identity (d : Doc) :
    replace_placeholders_in_document d [] = d := by
  have hid : applyAnswers ([] : Answers) = id := rfl
  have hpara : ∀ ps : List Para, ps.map (applyAnswers ([] : Answers)) = ps := by
    intro ps; rw [hid, List.map_id]
  have hcell : ∀ cs : List Cell,
      cs.map (fun c => Cell.mk (c.paragraphs.map (applyAnswers ([] : Answers)))) = cs := by
    intro cs
    induction cs with
    | nil => rfl
    | cons c cs ih => cases c with | mk ps => simp [hpara, ih]
  have hrow : ∀ rs : List Row,
      rs.map (fun r => Row.mk (r.cells.map
        (fun c => Cell.mk (c.paragraphs.map (applyAnswers ([] : Answers)))))) = rs := by
    intro rs
    induction rs with
    | nil => rfl
    | cons r rs ih => cases r with | mk cs => simp [hcell, ih]
  have htab : ∀ ts : List Table,
      ts.map (fun t => Table.mk (t.rows.map (fun r => Row.mk (r.cells.map
        (fun c => Cell.mk (c.paragraphs.map (applyAnswers ([] : Answers)))))))) = ts := by
    intro ts
    induction ts with
    | nil => rfl
    | cons t ts ih => cases t with | mk rs => simp [hrow, ih]
  cases d with
  | mk ps ts =>
    simp only [replace_placeholders_in_document]
    rw [hpara ps, htab ts]

/-! ## Claim C6 -/

/-- A paragraph whose text contains no answered token is left untouched
by the answers loop. -/
theorem applyAnswers_no_match : ∀ (answers : Answers) (p : Para),
    (∀ ta ∈ answers, pyContains (paraText p) ta.1 = false) →
    applyAnswers answers p = p := by
  intro answers
  induction answers with
  | nil => intro p _; rfl
  | cons ta rest ih =>
    intro p hall
    have h1 : applyPair p ta = p := by
      simp [applyPair, hall ta (List.mem_cons_self _ _)]
    calc applyAnswers (ta :: rest) p = applyAnswers rest (applyPair p ta) := rfl
    _ = applyAnswers rest p := by rw [h1]
    _ = p := ih p (fun tb hb => hall tb (List.mem_cons_of_mem _ hb))

/-- Claim C6: materialization applies the answers loop to every top-level
paragraph and to every paragraph of every table cell; at each position of
the answers map, a contained token is globally replaced in the
paragraph's concatenated text as it stands at that iteration, a
non-contained token leaves the paragraph as it stands; and a paragraph
containing no answered token at all is left verbatim. -/
theorem C6_materializer (d : Doc) (answers : Answers) :
    (∀ i : Nat, (replace_placeholders_in_document d answers).paragraphs[i]?
        = (d.paragraphs[i]?).map (applyAnswers answers))
  ∧ (∀ ti ri ci, cellParas (replace_placeholders_in_document d answers) ti ri ci
        = (cellParas d ti ri ci).map (List.map (applyAnswers answers)))
  ∧ (∀ p pre t a post, answers = pre ++ (t, a) :: post → t ≠ [] →
      (pyContains (paraText (applyAnswers pre p)) t = true →
        paraText (applyAnswers (pre ++ [(t, a)]) p)
          = pyReplace (paraText (applyAnswers pre p)) t a)
      ∧ (pyContains (paraText (applyAnswers pre p)) t = false →
        applyAnswers (pre ++ [(t, a)]) p = applyAnswers pre p))
  ∧ (∀ p, (∀ ta ∈ answers, pyContains (paraText p) ta.1 = false) →
      applyAnswers answers p = p) := by
  refine ⟨?_, ?_, ?_, fun p h => applyAnswers_no_match answers p h⟩
  · intro i
    simp [replace_placeholders_in_document, List.getElem?_map]
  · intro ti ri ci
    cases hti : d.tables[ti]? with
    | none =>
      simp [cellParas, replace_placeholders_in_document, List.getElem?_map, hti]
    | some t =>
      cases hri : t.rows[ri]? with
      | none =>
        simp [cellParas, replace_placeholders_in_document, List.getElem?_map, hti, hri]
      | some r =>
        cases hci : r.cells[ci]? with
        | none =>
          simp [cellParas, replace_placeholders_in_document, List.getElem?_map,
            hti, hri, hci]
        | some c =>
          simp [cellParas, replace_placeholders_in_document, List.getElem?_map,
            hti, hri, hci]
  · intro p pre t a post hans ht
    have hsplit : applyAnswers (pre ++ [(t, a)]) p
        = applyPair (applyAnswers pre p) (t, a) := by
      simp [applyAnswers, List.foldl_append]
    constructor
    · intro hc
      have hruns : (applyAnswers pre p).runs ≠ [] := by
        intro hnil
        have hempty : paraText (applyAnswers pre p) = [] := by
          simp [paraText, hnil]
        rw [hempty] at hc
        exact ht (pyContains_nil hc)
      rw [hsplit]
      have happ : applyPair (applyAnswers pre p) (t, a)
          = replace_text_in_paragraph (applyAnswers pre p) t a := by
        simp [applyPair, hc]
      rw [happ]
      exact (replace_text_in_paragraph_spec (applyAnswers pre p) t a hruns hc).2.2.2
    · intro hc
      rw [hsplit]
      simp [applyPair, hc]

/-- The document used by the C6 and C8 witnesses: Scenario C's paragraph
at top level and again inside the only cell of the only table. -/
def docW : Doc := ⟨[scenarioC], [⟨[⟨[⟨[scenarioC]⟩]⟩]⟩]⟩

/-- The one-entry answers map of the C6 and C8 witnesses. -/
def ansW : Answers := [("[Name]".data, "Alice".data)]

/-- Witness for C6 on a document with a table-cell paragraph. -/
theorem C6_witness :
    (cellParas (replace_placeholders_in_document docW ansW) 0 0 0
        = (cellParas docW 0 0 0).map (List.map (applyAnswers ansW)))
  ∧ paraText (applyAnswers ([] ++ [("[Name]".data, "Alice".data)]) scenarioC)
      = pyReplace (paraText (applyAnswers [] scenarioC)) "[Name]".data "Alice".data :=
  ⟨(C6_materializer docW ansW).2.1 0 0 0,
   ((C6_materializer docW ansW).2.2.1 scenarioC [] "[Name]".data "Alice".data []
      rfl (by decide)).1 (by decide)⟩

/-! ## Claim C8 -/

/-- One successful `/download` leaves the session unchanged, never
shrinks the heap, and preserves every pre-existing heap cell: the only
cell written is the freshly allocated clone. -/
theorem download_ok_preserves {st : Store} {s : Session} {st' : Store}
    {s' : Session} {out : Doc}
    (h : download st s = Except.ok (st', s', out)) :
    s' = s ∧ st.docs.length ≤ st'.docs.length
      ∧ ∀ j, j < st.docs.length → st'.docs[j]? = st.docs[j]? := by
  unfold download at h
  cases htext : s.text with
  | none => simp [htext] at h
  | some tx =>
    cases hans : s.answers with
    | none => simp [htext, hans] at h
    | some answers =>
      cases hidx : s.docIdx with
      | none => simp [htext, hans, hidx] at h
      | some idx =>
        cases hget : st.docs[idx]? with
        | none => simp [htext, hans, hidx, hget] at h
        | some orig =>
          simp only [htext, hans, hidx, hget, Except.ok.injEq, Prod.mk.injEq] at h
          obtain ⟨hst, hs, -⟩ := h
          refine ⟨hs.symm, ?_, ?_⟩
          · rw [← hst]
            simp
          · intro j hj
            rw [← hst]
            simp only [List.getElem?_set_ne (show st.docs.length ≠ j by omega),
              List.getElem?_append_left hj]

/-- Claim C8: the session's stored source document is never mutated —
after any number of `/download` operations, the heap cell the session
points at is unchanged (each download mutates only its own fresh
clone). -/
theorem C8_source_never_mutated (n : Nat) :
    ∀ (st : Store) (s : Session) (idx : Nat),
    s.docIdx = some idx → idx < st.docs.length →
    (downloadN n st s).docs[idx]? = st.docs[idx]? := by
  induction n with
  | zero => intro st s idx hidx hlt; rfl
  | succ n ih =>
    intro st s idx hidx hlt
    simp only [downloadN]
    cases hdl : download st s with
    | ok triple =>
      obtain ⟨st', s', out⟩ := triple
      obtain ⟨hs, hlen, hpres⟩ := download_ok_preserves hdl
      show (downloadN n st' s').docs[idx]? = st.docs[idx]?
      rw [hs, ih st' s idx hidx (lt_of_lt_of_le hlt hlen)]
      exact hpres idx hlt
    | error e =>
      exact ih st s idx hidx hlt

/-- Witness for C8: two downloads against a one-document heap. -/
theorem C8_witness :
    (downloadN 2 ⟨[docW]⟩ ⟨some [], some 0, some ansW, some []⟩).docs[0]?
      = (⟨[docW]⟩ : Store).docs[0]? :=
  C8_source_never_mutated 2 ⟨[docW]⟩ ⟨some [], some 0, some ansW, some []⟩ 0
    rfl (by simp)

/-! ## Claim C9 -/

/-- Claim C9: a `/download` with no session data — missing text, missing
answers map, or missing document — returns a structured materialization
error instead of crashing. -/
theorem C9_download_requires_session (st : Store) (s : Session)
    (h : s.text = none ∨ s.answers = none ∨ s.docIdx = none) :
    ∃ e, download st s = Except.error e := by
  rcases h with h | h | h
  · exact ⟨.noDocumentData, by unfold download; rw [h]⟩
  · cases ht : s.text with
    | none => exact ⟨.noDocumentData, by unfold download; rw [ht]⟩
    | some tx => exact ⟨.noAnswers, by unfold download; rw [ht, h]⟩
  · cases ht : s.text with
    | none => exact ⟨.noDocumentData, by unfold download; rw [ht]⟩
    | some tx =>
      cases ha : s.answers with
      | none => exact ⟨.noAnswers, by unfold download; rw [ht, ha]⟩
      | some ans => exact ⟨.noOriginalDocument, by unfold download; rw [ht, ha, h]⟩

/-- Witness for C9: a download against the pristine empty session. -/
theorem C9_witness :
    ∃ e, download ⟨[]⟩ ⟨none, none, none, none⟩ = Except.error e :=
  C9_download_requires_session ⟨[]⟩ ⟨none, none, none, none⟩ (Or.inl rfl)

/-! ## Claim C10 -/

/-- Claim C10: a submitted index at or past the placeholder count makes
`/fill` hit an uncaught `IndexError` (modelled `none`) rather than a
structured rejection, while a negative index in `[-N, 0)` is accepted and
records the answer against the placeholder at position `N + i`. -/
theorem C10_fill_index_bounds (details : List Detail) (answers : Answers)
    (answer : Str) (i : Int) :
    ((details.length : Int) ≤ i → fill details answers i answer = none)
  ∧ (-(details.length : Int) ≤ i → i < 0 →
      ∃ d res, details[(((details.length : Int) + i).toNat)]? = some d
        ∧ fill details answers i answer = some res
        ∧ res.answers = dictInsert answers d.placeholder answer) := by
  constructor
  · intro hge
    have h0 : 0 ≤ i := le_trans (Int.natCast_nonneg _) hge
    have hnone : details[i.toNat]? = none := List.getElem?_eq_none (by omega)
    simp [fill, pyIndex, h0, hnone]
  · intro hlb hneg
    have h0 : ¬ (0 ≤ i) := by omega
    have h1 : 0 ≤ (details.length : Int) + i := by omega
    obtain ⟨d, hd⟩ : ∃ d,
        details[(((details.length : Int) + i).toNat)]? = some d := by
      cases hg : details[(((details.length : Int) + i).toNat)]? with
      | none => rw [List.getElem?_eq_none_iff] at hg; omega
      | some x => exact ⟨x, rfl⟩
    have hpi : pyIndex details i = some d := by
      simp [pyIndex, h0, h1, hd]
    refine ⟨d, ?_⟩
    by_cases hc : i + 1 < (details.length : Int)
    · have hex : ∃ d', pyIndex details (i + 1) = some d' := by
        by_cases hc2 : 0 ≤ i + 1
        · obtain ⟨d', hd'⟩ : ∃ d', details[((i + 1).toNat)]? = some d' := by
            cases hg : details[((i + 1).toNat)]? with
            | none => rw [List.getElem?_eq_none_iff] at hg; omega
            | some x => exact ⟨x, rfl⟩
          exact ⟨d', by simp [pyIndex, hc2, hd']⟩
        · have h1' : 0 ≤ (details.length : Int) + (i + 1) := by omega
          obtain ⟨d', hd'⟩ : ∃ d',
              details[(((details.length : Int) + (i + 1)).toNat)]? = some d' := by
            cases hg : details[(((details.length : Int) + (i + 1)).toNat)]? with
            | none => rw [List.getElem?_eq_none_iff] at hg; omega
            | some x => exact ⟨x, rfl⟩
          exact ⟨d', by simp [pyIndex, hc2, h1', hd']⟩
      obtain ⟨d', hd'⟩ := hex
      exact ⟨⟨dictInsert answers d.placeholder answer, some (d'.question, i + 1 + 1)⟩,
        hd, by simp [fill, hpi, hc, hd'], rfl⟩
    · exact ⟨⟨dictInsert answers d.placeholder answer, none⟩,
        hd, by simp [fill, hpi, hc], rfl⟩

/-- Witness for C10: over two placeholders, index `3` crashes with the
uncaught indexing error and index `-2` records against position `0`. -/
theorem C10_witness :
    fill [detailA, detailB] [] 3 "w".data = none
  ∧ ∃ d res,
      [detailA, detailB][((([detailA, detailB].length : Int) + (-2)).toNat)]? = some d
        ∧ fill [detailA, detailB] [] (-2) "z".data = some res
        ∧ res.answers = dictInsert [] d.placeholder "z".data :=
  ⟨(C10_fill_index_bounds [detailA, detailB] [] "w".data 3).1 (by decide),
   (C10_fill_index_bounds [detailA, detailB] [] "z".data (-2)).2 (by decide) (by decide)⟩

end DocFiller

